import Mathlib

/-!
Shallow embedding of the two browser scripts of the Undo repository:
`src/static/sw.js` (service-worker offline cache manager) and
`src/static/swipe.js` (touch-gesture tab navigator).

The service worker's environment is modelled explicitly: the network is a
function from URLs (or requests) to `Option Response` (`none` = the fetch
promise rejects), and the cache store is an association list from URL to
response.  Handlers are pure functions of those inputs; a handler that can
leave the page with a rejected response returns `Option Response`.
-/

set_option autoImplicit false

namespace SW

/-- A fetched HTTP response: status code and body.  `fetch` resolves with a
response even for HTTP error statuses such as 404 or 500; rejection of the
fetch promise is modelled by `Option.none` at the network, not by a status. -/
structure Response where
  status : Nat
  body : String
deriving DecidableEq, Repr, Inhabited

/-- An intercepted request: its URL and its mode (`"navigate"` for full-page
navigations, anything else for subresource requests). -/
structure Request where
  url : String
  mode : String
deriving DecidableEq, Repr

/-- The cache store: an association list from request URL to stored response
(request identity is by URL here, matching `caches.match` keying). -/
abbrev Cache := List (String × Response)

/-- Model of `caches.match`: the first stored entry whose URL equals the key. -/
def cacheMatch (c : Cache) (url : String) : Option Response :=
  List.lookup url c

/-- Model of `cache.put`: store a response under a URL, replacing any entry with the
same URL. -/
def cachePut (c : Cache) (url : String) (r : Response) : Cache :=
  (List.filter (fun p => p.1 ≠ url) c) ++ [(url, r)]

/-- The constant `CACHE_NAME = "undo-cache-v1"` from `sw.js`. -/
def CACHE_NAME : String := "undo-cache-v1"

/-- The constant `OFFLINE_URL = "/static/offline.html"` from `sw.js`. -/
def OFFLINE_URL : String := "/static/offline.html"

/-- The fixed precache manifest `PRECACHE` from `sw.js`. -/
def PRECACHE : List String :=
  [ "/",
    "/static/style.css",
    OFFLINE_URL,
    "/static/icons/icon-192.png",
    "/static/icons/icon-512.png",
    "/static/manifest.webmanifest" ]

/-- The fetch phase of `cache.addAll`: fetch every URL of the list; if any
fetch rejects the whole batch rejects (`none`), otherwise the list of
fetched entries in manifest order. -/
def fetchAll (net : String → Option Response) : List String → Option (List (String × Response))
  | [] => some []
  | u :: us =>
    match net u with
    | none => none
    | some r =>
      match fetchAll net us with
      | none => none
      | some rest => some ((u, r) :: rest)

/-- Model of `cache.addAll(PRECACHE)` inside the install handler, acting on the store
opened by `caches.open(CACHE_NAME)`: atomic all-or-nothing — entries are
written only after every fetch of the batch has succeeded; on any failure
the store is left untouched and the install promise rejects.  Returns the
success flag of the install step together with the resulting store. -/
def installRun (net : String → Option Response) (c : Cache) : Bool × Cache :=
  match fetchAll net PRECACHE with
  | none => (false, c)
  | some entries => (true, entries.foldl (fun acc e => cachePut acc e.1 e.2) c)

/-- Observable events of the install handler, in execution order. -/
inductive InstallEvent where
  | skipWaitingSignal
  | populateSuccess
  | populateFailure
deriving DecidableEq, Repr

/-- The install handler of `sw.js` as an event trace: the handler body runs
synchronously — `event.waitUntil(caches.open(...).then(c => c.addAll(PRECACHE)))`
registers the population promise and `self.skipWaiting()` is then called at
once, so the skip-waiting signal precedes the settling (success or failure)
of the population. -/
def installTrace (net : String → Option Response) : List InstallEvent :=
  InstallEvent.skipWaitingSignal ::
    (match fetchAll net PRECACHE with
     | none => [InstallEvent.populateFailure]
     | some _ => [InstallEvent.populateSuccess])

/-- The fetch handler of `sw.js`.  Navigation requests: network-first with
`fetch(req).catch(() => caches.match(OFFLINE_URL))`.  All other requests:
cache-first with `caches.match(req).then(hit => hit || fetch(req))`.
Returns the response served (`none` = the page sees a rejection) together
with the cache store after handling. -/
def handleFetch (net : Request → Option Response) (c : Cache) (req : Request) :
    Option Response × Cache :=
  if req.mode = "navigate" then
    (match net req with
     | some r => some r
     | none => cacheMatch c OFFLINE_URL, c)
  else
    (match cacheMatch c req.url with
     | some hit => some hit
     | none => net req, c)

/-! Helper lemmas about the cache store and the precache batch. -/

theorem lookup_append (a : String) (l₁ l₂ : Cache) :
    List.lookup a (l₁ ++ l₂) =
      (match List.lookup a l₁ with
       | some r => some r
       | none => List.lookup a l₂) := by
  induction l₁ with
  | nil => simp [List.lookup]
  | cons p l ih =>
    obtain ⟨k, v⟩ := p
    by_cases h : a = k
    · simp [List.lookup, h]
    · simpa [List.lookup_cons, beq_false_of_ne h] using ih

theorem filter_ne_of_lookup_none (c : Cache) (u : String)
    (h : List.lookup u c = none) :
    List.filter (fun p => p.1 ≠ u) c = c := by
  induction c with
  | nil => rfl
  | cons p c ih =>
    obtain ⟨k, v⟩ := p
    by_cases hk : u = k
    · subst hk
      simp [List.lookup] at h
    · simp only [List.lookup, beq_false_of_ne hk] at h
      rw [List.filter_cons, if_pos (by simp [Ne.symm hk]), ih h]

theorem lookup_filter_none (u : String) (c : Cache) :
    List.lookup u (List.filter (fun p => p.1 ≠ u) c) = none := by
  induction c with
  | nil => rfl
  | cons p c ih =>
    obtain ⟨k, v⟩ := p
    rw [List.filter_cons]
    by_cases hk : k = u
    · rw [if_neg (by simp [hk])]
      exact ih
    · rw [if_pos (by simp [hk])]
      simpa [List.lookup_cons, beq_false_of_ne (Ne.symm hk)] using ih

theorem lookup_filter_ne (a u : String) (c : Cache) (h : a ≠ u) :
    List.lookup a (List.filter (fun p => p.1 ≠ u) c) = List.lookup a c := by
  induction c with
  | nil => rfl
  | cons p c ih =>
    obtain ⟨k, v⟩ := p
    rw [List.filter_cons]
    by_cases hk : k = u
    · rw [if_neg (by simp [hk])]
      have hak : a ≠ k := hk ▸ h
      rw [ih]
      simp [List.lookup_cons, beq_false_of_ne hak]
    · rw [if_pos (by simp [hk])]
      by_cases hak : a = k
      · simp [List.lookup_cons, hak]
      · simpa [List.lookup_cons, beq_false_of_ne hak] using ih

theorem lookup_cachePut_self (c : Cache) (u : String) (r : Response) :
    List.lookup u (cachePut c u r) = some r := by
  unfold cachePut
  rw [lookup_append, lookup_filter_none]
  simp [List.lookup]

theorem lookup_cachePut_ne (c : Cache) (a u : String) (r : Response) (h : a ≠ u) :
    List.lookup a (cachePut c u r) = List.lookup a c := by
  unfold cachePut
  rw [lookup_append, lookup_filter_ne a u c h]
  cases hc : List.lookup a c with
  | some v => rfl
  | none => simp [List.lookup, beq_false_of_ne h]

theorem lookup_foldl_cachePut_isSome (entries : List (String × Response)) (c : Cache)
    (u : String)
    (h : (List.lookup u c).isSome ∨ u ∈ entries.map Prod.fst) :
    (List.lookup u (entries.foldl (fun acc e => cachePut acc e.1 e.2) c)).isSome := by
  induction entries generalizing c with
  | nil =>
    rcases h with h | h
    · simpa using h
    · simp at h
  | cons e rest ih =>
    obtain ⟨k, v⟩ := e
    apply ih (cachePut c k v)
    by_cases hk : u = k
    · subst hk
      left
      rw [lookup_cachePut_self]
      rfl
    · rcases h with h | h
      · left
        rwa [lookup_cachePut_ne c u k v hk]
      · simp only [List.map_cons, List.mem_cons] at h
        rcases h with h | h
        · exact absurd h hk
        · right
          exact h

theorem foldl_cachePut_eq_append (entries : List (String × Response)) (c : Cache)
    (hdisj : ∀ e ∈ entries, List.lookup e.1 c = none)
    (hnodup : (entries.map Prod.fst).Nodup) :
    entries.foldl (fun acc e => cachePut acc e.1 e.2) c = c ++ entries := by
  induction entries generalizing c with
  | nil => simp
  | cons e rest ih =>
    obtain ⟨k, v⟩ := e
    simp only [List.map_cons, List.nodup_cons] at hnodup
    have hput : cachePut c k v = c ++ [(k, v)] := by
      unfold cachePut
      rw [filter_ne_of_lookup_none c k (hdisj (k, v) (List.mem_cons_self _ _))]
    have hdisj' : ∀ e ∈ rest, List.lookup e.1 (c ++ [(k, v)]) = none := by
      intro e he
      rw [lookup_append]
      have h1 : List.lookup e.1 c = none := hdisj e (List.mem_cons_of_mem _ he)
      have h2 : e.1 ≠ k := by
        intro hk
        exact hnodup.1 (hk ▸ List.mem_map_of_mem Prod.fst he)
      simp [h1, List.lookup, beq_false_of_ne h2]
    calc (((k, v) :: rest).foldl (fun acc e => cachePut acc e.1 e.2) c)
        = rest.foldl (fun acc e => cachePut acc e.1 e.2) (cachePut c k v) := rfl
      _ = cachePut c k v ++ rest := ih (cachePut c k v) (by rw [hput]; exact hdisj') hnodup.2
      _ = c ++ (k, v) :: rest := by rw [hput, List.append_assoc]; rfl

theorem fetchAll_keys (net : String → Option Response) :
    ∀ (l : List String) (entries : List (String × Response)),
      fetchAll net l = some entries → entries.map Prod.fst = l := by
  intro l
  induction l with
  | nil =>
    intro entries h
    simp only [fetchAll] at h
    cases h
    rfl
  | cons u us ih =>
    intro entries h
    simp only [fetchAll] at h
    cases hnu : net u with
    | none => rw [hnu] at h; cases h
    | some r =>
      rw [hnu] at h
      cases hrest : fetchAll net us with
      | none => rw [hrest] at h; cases h
      | some rest =>
        rw [hrest] at h
        cases h
        simp [ih rest hrest]

theorem fetchAll_isSome (net : String → Option Response) (l : List String)
    (h : ∀ u ∈ l, (net u).isSome) : (fetchAll net l).isSome := by
  induction l with
  | nil => simp [fetchAll]
  | cons u us ih =>
    have hu : (net u).isSome := h u (List.mem_cons_self _ _)
    have hus : (fetchAll net us).isSome := ih fun v hv => h v (List.mem_cons_of_mem _ hv)
    simp only [fetchAll]
    cases hnu : net u with
    | none => rw [hnu] at hu; cases hu
    | some r =>
      cases hrest : fetchAll net us with
      | none => rw [hrest] at hus; cases hus
      | some rest => rfl

theorem fetchAll_lookup (net : String → Option Response) :
    ∀ (l : List String) (entries : List (String × Response)),
      fetchAll net l = some entries → ∀ u ∈ l, List.lookup u entries = net u := by
  intro l
  induction l with
  | nil => intro entries _ u hu; cases hu
  | cons v vs ih =>
    intro entries h u hu
    simp only [fetchAll] at h
    cases hnv : net v with
    | none => rw [hnv] at h; cases h
    | some r =>
      rw [hnv] at h
      cases hrest : fetchAll net vs with
      | none => rw [hrest] at h; cases h
      | some rest =>
        rw [hrest] at h
        cases h
        by_cases huv : u = v
        · subst huv
          simp [List.lookup, hnv]
        · rcases List.mem_cons.mp hu with h | h
          · exact absurd h huv
          · simpa [List.lookup, beq_false_of_ne huv] using ih rest hrest u h

theorem fetchAll_fails (net : String → Option Response) :
    ∀ (l : List String) (u : String), u ∈ l → net u = none → fetchAll net l = none := by
  intro l
  induction l with
  | nil => intro u hu; cases hu
  | cons v vs ih =>
    intro u hu hf
    simp only [fetchAll]
    rcases List.mem_cons.mp hu with h | h
    · subst h
      rw [hf]
    · cases hnv : net v with
      | none => rfl
      | some r => rw [ih u h hf]

/-! Claim theorems about the service worker. -/

/-- C1: for an intercepted navigation request the fetch handler is
network-first: when the live fetch rejects, the response served is the
cache's entry for the offline fallback URL `/static/offline.html`; when it
resolves, the network response is returned as-is; and in both cases the
cache store is left unchanged (nothing is written back). -/
theorem navigate_network_first (net : Request → Option Response) (c : Cache)
    (req : Request) (hmode : req.mode = "navigate") :
    (net req = none → (handleFetch net c req).1 = cacheMatch c OFFLINE_URL) ∧
    (∀ r, net req = some r → (handleFetch net c req).1 = some r) ∧
    (handleFetch net c req).2 = c := by
  unfold handleFetch
  rw [if_pos hmode]
  exact ⟨fun h => by simp [h], fun r h => by simp [h], rfl⟩

theorem navigate_network_first_witness :
    (handleFetch (fun _ => none) [(OFFLINE_URL, ⟨200, "offline"⟩)]
        ⟨"/", "navigate"⟩).1 = some ⟨200, "offline"⟩ := by
  have h := (navigate_network_first (fun _ => none)
      [(OFFLINE_URL, ⟨200, "offline"⟩)] ⟨"/", "navigate"⟩ rfl).1 rfl
  rw [h]
  rfl

/-- C2: for an intercepted non-navigation request the fetch handler is
cache-first: a matching cached entry is returned when present, otherwise
the result of a live network fetch is returned; and in both cases nothing
is written into the cache store, which is unchanged by fetch handling. -/
theorem asset_cache_first (net : Request → Option Response) (c : Cache)
    (req : Request) (hmode : req.mode ≠ "navigate") :
    (∀ hit, cacheMatch c req.url = some hit → (handleFetch net c req).1 = some hit) ∧
    (cacheMatch c req.url = none → (handleFetch net c req).1 = net req) ∧
    (handleFetch net c req).2 = c := by
  unfold handleFetch
  rw [if_neg hmode]
  exact ⟨fun hit h => by simp [h], fun h => by simp [h], rfl⟩

theorem asset_cache_first_witness :
    (handleFetch (fun _ => some ⟨200, "net"⟩) [] ⟨"/static/app.js", "no-cors"⟩).1
      = some ⟨200, "net"⟩ := by
  have h := (asset_cache_first (fun _ => some ⟨200, "net"⟩) []
      ⟨"/static/app.js", "no-cors"⟩ (by decide)).2.1 rfl
  rw [h]

/-- C4 counterexample: the precache manifest `PRECACHE` of `sw.js` lists
six asset paths, not seven. -/
theorem precache_length_ne_seven : PRECACHE.length ≠ 7 := by decide

/-- C4 (amended): the precache manifest consists of six asset paths, and
after an install in which every precache fetch succeeds the cache store
contains exactly those six entries — its keys are exactly `PRECACHE` in
manifest order and each key stores its fetched response. -/
theorem install_populates_exactly_precache (net : String → Option Response)
    (hnet : ∀ u ∈ PRECACHE, (net u).isSome) :
    PRECACHE.length = 6 ∧
    (installRun net []).1 = true ∧
    ((installRun net []).2).map Prod.fst = PRECACHE ∧
    ∀ u ∈ PRECACHE, cacheMatch ((installRun net []).2) u = net u := by
  obtain ⟨entries, heq⟩ := Option.isSome_iff_exists.mp (fetchAll_isSome net PRECACHE hnet)
  have hkeys := fetchAll_keys net PRECACHE entries heq
  have hnodup : (entries.map Prod.fst).Nodup := by
    rw [hkeys]
    decide
  have hfold : entries.foldl (fun acc e => cachePut acc e.1 e.2) ([] : Cache) = entries := by
    simpa using foldl_cachePut_eq_append entries [] (fun e _ => rfl) hnodup
  refine ⟨rfl, ?_, ?_, ?_⟩
  · simp [installRun, heq]
  · simp [installRun, heq, hfold, hkeys]
  · intro u hu
    simp only [installRun, heq, hfold]
    exact fetchAll_lookup net PRECACHE entries heq u hu

theorem install_populates_exactly_precache_witness :
    ((installRun (fun u => some ⟨200, u⟩) []).2).map Prod.fst = PRECACHE :=
  (install_populates_exactly_precache (fun u => some ⟨200, u⟩) (fun _ _ => rfl)).2.2.1

/-- C5 counterexample: with a network on which every fetch rejects, the
install handler still signals skip-waiting, and the signal is emitted
before the (failed) population settles — the trace is
`[skipWaitingSignal, populateFailure]` and contains no successful
population at all. -/
theorem skipWaiting_signaled_on_failed_install :
    installTrace (fun _ => none) =
      [InstallEvent.skipWaitingSignal, InstallEvent.populateFailure] ∧
    InstallEvent.populateSuccess ∉ installTrace (fun _ => none) := by
  decide

/-- C5 (amended): `self.skipWaiting()` is invoked synchronously inside the
install handler, so readiness to skip any previous waiting instance is
signaled first — before precache population settles — and is signaled
regardless of whether population succeeds or fails. -/
theorem skipWaiting_signal_first (net : String → Option Response) :
    (installTrace net).head? = some InstallEvent.skipWaitingSignal := rfl

/-- C6: install-time precache population is atomic all-or-nothing: if the
fetch of any single manifest URL rejects, the install step as a whole fails
(the failure is propagated, not recovered) and the cache store is left
exactly as it was, holding no partial subset of the manifest entries. -/
theorem install_atomic_failure (net : String → Option Response) (c : Cache)
    (u : String) (hu : u ∈ PRECACHE) (hf : net u = none) :
    installRun net c = (false, c) := by
  simp [installRun, fetchAll_fails net PRECACHE u hu hf]

theorem install_atomic_failure_witness :
    installRun (fun _ => none) [] = (false, []) :=
  install_atomic_failure (fun _ => none) [] "/" (by decide) rfl

/-- C9: the offline fallback URL `/static/offline.html` is a member of the
precache manifest, so after any successful install the cache lookup that
the navigation branch performs on fetch failure necessarily finds a cached
entry. -/
theorem offline_fallback_always_cached (net : String → Option Response) (c : Cache)
    (hsucc : (installRun net c).1 = true) :
    OFFLINE_URL ∈ PRECACHE ∧
    (cacheMatch ((installRun net c).2) OFFLINE_URL).isSome := by
  refine ⟨by decide, ?_⟩
  cases hfa : fetchAll net PRECACHE with
  | none =>
    rw [installRun, hfa] at hsucc
    cases hsucc
  | some entries =>
    simp only [installRun, hfa]
    apply lookup_foldl_cachePut_isSome
    right
    rw [fetchAll_keys net PRECACHE entries hfa]
    decide

theorem offline_fallback_always_cached_witness :
    (cacheMatch ((installRun (fun u => some ⟨200, u⟩) []).2) OFFLINE_URL).isSome :=
  (offline_fallback_always_cached (fun u => some ⟨200, u⟩) [] rfl).2

/-- C10: when the live fetch for a navigation request resolves with a
response — whatever its HTTP status, error statuses such as 404 or 500
included — that response is returned unchanged and the cached offline
fallback is not served; the fallback is consulted only when the fetch
rejects. -/
theorem navigate_resolved_passthrough (net : Request → Option Response) (c : Cache)
    (req : Request) (r : Response) (hmode : req.mode = "navigate")
    (hres : net req = some r) :
    (handleFetch net c req).1 = some r := by
  unfold handleFetch
  rw [if_pos hmode]
  simp [hres]

theorem navigate_resolved_passthrough_witness :
    (handleFetch (fun _ => some ⟨404, "not found"⟩)
        [(OFFLINE_URL, ⟨200, "offline"⟩)] ⟨"/x", "navigate"⟩).1
      = some ⟨404, "not found"⟩ :=
  navigate_resolved_passthrough _ _ _ _ rfl rfl

end SW

namespace Swipe

/-!
Embedding of `src/static/swipe.js`.  Touch coordinates (`clientX`,
`clientY`) are JavaScript numbers; they are modelled by exact rationals, and
the float computation `Math.atan2(|dy|, |dx|) * 180 / Math.PI ≤ 30` is
modelled by its exact-real equivalent `3·dy² ≤ dx²` (for `|dx| > 0` the
angle is at most 30° iff `|dy|/|dx| ≤ tan 30° = 1/√3`, iff `3·dy² ≤ dx²`).

The browser's URL parser is a parameter of the embedding: `parse href` is
the `pathname` of `new URL(href, window.location.origin)`, and `none` models
the constructor throwing.  All theorems below hold for every `parse`, hence
in particular for the browser's parser.
-/

/-- The constant `SWIPE_THRESHOLD = 60` from `swipe.js`: minimum horizontal travel in px. -/
def SWIPE_THRESHOLD : ℚ := 60

/-- The constant `MAX_ANGLE_DEG = 30` from `swipe.js`. -/
def MAX_ANGLE_DEG : ℚ := 30

/-- Model of `angleOK(dx, dy)` from `swipe.js`: false when `|dx| = 0`, otherwise true
iff `atan2(|dy|, |dx|)` is at most `MAX_ANGLE_DEG` degrees — in exact
arithmetic, iff `3·|dy|² ≤ |dx|²`. -/
def angleOK (dx dy : ℚ) : Bool :=
  let adx := |dx|
  let ady := |dy|
  if adx = 0 then false else decide (3 * ady ^ 2 ≤ adx ^ 2)

/-- Model of `normalizePath(href)` from `swipe.js`: the pathname of
`new URL(href, origin)`, or `null` (`none`) when URL construction throws;
`parse` is the browser's URL parser. -/
def normalizePath (parse : String → Option String) (href : String) : Option String :=
  parse href

/-- Model of `tabIndexOf(href)` from `swipe.js`: `-1` when `href` has no normalized
path, otherwise the JS `findIndex` over the tab list of the first tab whose
normalized path equals it (`-1` when none matches; a tab whose own
normalization is `null` never matches). -/
def tabIndexOf (parse : String → Option String) (tabs : List String)
    (href : String) : Int :=
  match normalizePath parse href with
  | none => -1
  | some path =>
    match tabs.findIdx? (fun t => normalizePath parse t = some path) with
    | none => -1
    | some i => (i : Int)

/-- Model of `goto(url)` from `swipe.js`: navigates only when `url` is truthy — for
a string value, when it is nonempty; `none` models an `undefined` argument.
The result is the navigation performed (`none` = no location change). -/
def goto (url : Option String) : Option String :=
  match url with
  | none => none
  | some s => if s = "" then none else some s

/-- Model of `nextTab()` from `swipe.js`: when the current page's path is found at
index `i` in the tab list, go to the tab at `(i + 1) % tabs.length`. -/
def nextTab (parse : String → Option String) (tabs : List String)
    (current : String) : Option String :=
  let i := tabIndexOf parse tabs current
  if 0 ≤ i then goto (tabs.get? (((i + 1) % (tabs.length : Int)).toNat)) else none

/-- Model of `prevTab()` from `swipe.js`: when the current page's path is found at
index `i` in the tab list, go to the tab at
`(i - 1 + tabs.length) % tabs.length`. -/
def prevTab (parse : String → Option String) (tabs : List String)
    (current : String) : Option String :=
  let i := tabIndexOf parse tabs current
  if 0 ≤ i then
    goto (tabs.get? (((i - 1 + (tabs.length : Int)) % (tabs.length : Int)).toNat))
  else none

/-- The closure state of `swipe.js` (`startX`, `startY`, `moved`, `ignore`). -/
structure GestureState where
  startX : ℚ
  startY : ℚ
  moved : Bool
  ignore : Bool
deriving Repr

/-- The `touchstart` handler: record the first touch point's coordinates,
reset `moved`, and set `ignore` when the touch target is (or is inside) an
interactive element (`input, textarea, select, button, a,
[contenteditable="true"]` — the `isFormEl` test on the event target). -/
def touchstart (x y : ℚ) (targetInteractive : Bool) : GestureState :=
  { startX := x, startY := y, moved := false, ignore := targetInteractive }

/-- The `touchmove` handler: any movement sets `moved`. -/
def touchmove (s : GestureState) : GestureState :=
  { s with moved := true }

/-- The `touchend` handler: abort when the sequence is ignored or never
moved; otherwise compute the displacement from the start point to the
first changed touch, abort under the distance threshold or on a too-steep
angle, and otherwise navigate — next tab for `dx < 0`, previous tab for
`dx > 0`.  The result is the navigation performed (`none` = no action). -/
def touchend (parse : String → Option String) (tabs : List String)
    (current : String) (s : GestureState) (endX endY : ℚ) : Option String :=
  if s.ignore || !s.moved then none
  else
    let dx := endX - s.startX
    let dy := endY - s.startY
    if |dx| < SWIPE_THRESHOLD then none
    else if !(angleOK dx dy) then none
    else if dx < 0 then nextTab parse tabs current
    else prevTab parse tabs current

/-- A complete touch sequence: a `touchstart` at `(x, y)` on a target that
is or is not interactive, `nmoves` subsequent `touchmove` events, and a
`touchend` whose changed touch is at `(ex, ey)`.  Returns the navigation
performed by the sequence. -/
def runSequence (parse : String → Option String) (tabs : List String)
    (current : String) (x y : ℚ) (interactive : Bool) (nmoves : Nat)
    (ex ey : ℚ) : Option String :=
  touchend parse tabs current (touchmove^[nmoves] (touchstart x y interactive)) ex ey

/-! Helper lemmas about the gesture handler. -/

theorem angleOK_iff (dx dy : ℚ) :
    angleOK dx dy = true ↔ (dx ≠ 0 ∧ 3 * dy ^ 2 ≤ dx ^ 2) := by
  rcases eq_or_ne dx 0 with h | h
  · simp [angleOK, h]
  · have habs : |dx| ≠ 0 := by simpa [abs_eq_zero] using h
    simp [angleOK, habs, h, sq_abs]

/-- Justification of the angle model: for nonzero `dx`, the exact test
`3·dy² ≤ dx²` decided by `angleOK` holds exactly when the swipe angle
`arctan(|dy| / |dx|)` is at most 30 degrees (π/6 radians) — the source's
`Math.atan2(ady, adx) * 180 / Math.PI ≤ 30` under exact real arithmetic. -/
theorem angleOK_iff_arctan (dx dy : ℚ) (hdx : dx ≠ 0) :
    angleOK dx dy = true ↔
      Real.arctan (|(dy : ℝ)| / |(dx : ℝ)|) ≤ Real.pi / 6 := by
  have hdxR : (0 : ℝ) < |(dx : ℝ)| := abs_pos.mpr (by exact_mod_cast hdx)
  have hs3 : (0 : ℝ) < Real.sqrt 3 := Real.sqrt_pos.mpr (by norm_num)
  have hsq3 : Real.sqrt 3 ^ 2 = 3 := Real.sq_sqrt (by norm_num)
  have harc : Real.arctan (1 / Real.sqrt 3) = Real.pi / 6 := by
    rw [← Real.tan_pi_div_six]
    exact Real.arctan_tan (by linarith [Real.pi_pos]) (by linarith [Real.pi_pos])
  rw [angleOK_iff, ← harc, Real.arctan_strictMono.le_iff_le,
    div_le_div_iff₀ hdxR hs3, one_mul]
  constructor
  · rintro ⟨-, h⟩
    have hR : 3 * (dy : ℝ) ^ 2 ≤ (dx : ℝ) ^ 2 := by exact_mod_cast h
    have hsq : (|(dy : ℝ)| * Real.sqrt 3) ^ 2 ≤ |(dx : ℝ)| ^ 2 := by
      rw [mul_pow, sq_abs, sq_abs, hsq3]
      nlinarith
    have habs := abs_le_of_sq_le_sq hsq (le_of_lt hdxR)
    rwa [abs_of_nonneg (by positivity)] at habs
  · intro h
    refine ⟨hdx, ?_⟩
    have hsq : (|(dy : ℝ)| * Real.sqrt 3) ^ 2 ≤ |(dx : ℝ)| ^ 2 :=
      pow_le_pow_left₀ (by positivity) h 2
    rw [mul_pow, sq_abs, sq_abs, hsq3] at hsq
    have hR : 3 * (dy : ℝ) ^ 2 ≤ (dx : ℝ) ^ 2 := by nlinarith
    exact_mod_cast hR

theorem iterate_touchmove_fields (s : GestureState) (n : Nat) :
    (touchmove^[n] s).ignore = s.ignore ∧ (touchmove^[n] s).startX = s.startX ∧
    (touchmove^[n] s).startY = s.startY ∧
    (touchmove^[n] s).moved = (s.moved || decide (n ≠ 0)) := by
  induction n with
  | zero => simp
  | succ n ih =>
    rw [Function.iterate_succ_apply']
    exact ⟨ih.1, ih.2.1, ih.2.2.1, by simp [touchmove]⟩

theorem tabIndexOf_nonneg_elim (parse : String → Option String) (tabs : List String)
    (href : String) (h : 0 ≤ tabIndexOf parse tabs href) :
    ∃ (p : String) (j : Nat), normalizePath parse href = some p ∧
      tabs.findIdx? (fun t => normalizePath parse t = some p) = some j ∧
      tabIndexOf parse tabs href = (j : Int) ∧ j < tabs.length := by
  cases hp : normalizePath parse href with
  | none =>
    simp only [tabIndexOf, hp] at h
    norm_num at h
  | some p =>
    cases hf : tabs.findIdx? (fun t => normalizePath parse t = some p) with
    | none =>
      simp only [tabIndexOf, hp, hf] at h
      norm_num at h
    | some j =>
      refine ⟨p, j, rfl, hf, ?_, (List.findIdx?_eq_some_iff_findIdx_eq.mp hf).1⟩
      simp only [tabIndexOf, hp, hf]

theorem findIdx?_acc_spec {α : Type} (p : α → Bool) :
    ∀ (l : List α) (i j : Nat), List.findIdx? p l i = some j →
      i ≤ j ∧ ∃ t, l.get? (j - i) = some t ∧ p t = true := by
  intro l
  induction l with
  | nil =>
    intro i j h
    cases h
  | cons a l ih =>
    intro i j h
    rw [List.findIdx?_cons] at h
    by_cases hpa : p a = true
    · rw [if_pos hpa] at h
      cases h
      exact ⟨le_refl _, a, by simp, hpa⟩
    · rw [if_neg hpa] at h
      obtain ⟨hij, t, hget, hpt⟩ := ih (i + 1) j h
      refine ⟨by omega, t, ?_, hpt⟩
      have hidx : j - i = (j - (i + 1)) + 1 := by omega
      rw [hidx, List.get?_cons_succ]
      exact hget

theorem next_index_cast (j n : Nat) :
    (((j : Int) + 1) % (n : Int)).toNat = (j + 1) % n := by
  have h : ((j : Int) + 1) = ((j + 1 : Nat) : Int) := by push_cast; ring
  rw [h, ← Int.ofNat_emod]
  exact Int.toNat_ofNat _

theorem prev_index_cast (j n : Nat) (hn : 1 ≤ n) :
    (((j : Int) - 1 + (n : Int)) % (n : Int)).toNat = (j + n - 1) % n := by
  have h : ((j : Int) - 1 + (n : Int)) = ((j + n - 1 : Nat) : Int) := by omega
  rw [h, ← Int.ofNat_emod]
  exact Int.toNat_ofNat _

theorem nextTab_eq (parse : String → Option String) (tabs : List String)
    (current : String) (j : Nat)
    (hj : tabIndexOf parse tabs current = (j : Int)) :
    nextTab parse tabs current = goto (tabs.get? ((j + 1) % tabs.length)) := by
  simp only [nextTab]
  rw [hj, if_pos (Int.natCast_nonneg j), next_index_cast]

theorem prevTab_eq (parse : String → Option String) (tabs : List String)
    (current : String) (j : Nat)
    (hj : tabIndexOf parse tabs current = (j : Int)) (hn : 1 ≤ tabs.length) :
    prevTab parse tabs current
      = goto (tabs.get? ((j + tabs.length - 1) % tabs.length)) := by
  simp only [prevTab]
  rw [hj, if_pos (Int.natCast_nonneg j), prev_index_cast j tabs.length hn]

theorem goto_get_isSome (tabs : List String) (k : Nat) (hk : k < tabs.length)
    (hne : ∀ t ∈ tabs, t ≠ "") :
    (goto (tabs.get? k)).isSome := by
  have hget : tabs.get? k = some (tabs.get ⟨k, hk⟩) := by
    rw [List.get?_eq_some]
    exact ⟨hk, rfl⟩
  rw [hget]
  have hmem : tabs.get ⟨k, hk⟩ ∈ tabs := List.get_mem _ _ _
  have hne' := hne _ hmem
  simp only [goto]
  rw [if_neg hne']
  rfl

theorem nextTab_isSome (parse : String → Option String) (tabs : List String)
    (current : String) (h : 0 ≤ tabIndexOf parse tabs current)
    (hne : ∀ t ∈ tabs, t ≠ "") : (nextTab parse tabs current).isSome := by
  obtain ⟨p, j, hp, hf, hj, hjlen⟩ := tabIndexOf_nonneg_elim parse tabs current h
  rw [nextTab_eq parse tabs current j hj]
  exact goto_get_isSome tabs _ (Nat.mod_lt _ (by omega)) hne

theorem prevTab_isSome (parse : String → Option String) (tabs : List String)
    (current : String) (h : 0 ≤ tabIndexOf parse tabs current)
    (hne : ∀ t ∈ tabs, t ≠ "") : (prevTab parse tabs current).isSome := by
  obtain ⟨p, j, hp, hf, hj, hjlen⟩ := tabIndexOf_nonneg_elim parse tabs current h
  rw [prevTab_eq parse tabs current j hj (by omega)]
  exact goto_get_isSome tabs _ (Nat.mod_lt _ (by omega)) hne

theorem runSequence_eq (parse : String → Option String) (tabs : List String)
    (current : String) (x y ex ey : ℚ) (interactive : Bool) (nmoves : Nat) :
    runSequence parse tabs current x y interactive nmoves ex ey =
      if nmoves ≠ 0 ∧ interactive = false ∧ SWIPE_THRESHOLD ≤ |ex - x| ∧
          3 * (ey - y) ^ 2 ≤ (ex - x) ^ 2 then
        (if ex - x < 0 then nextTab parse tabs current
         else prevTab parse tabs current)
      else none := by
  obtain ⟨hig, hsx, hsy, hmv⟩ := iterate_touchmove_fields (touchstart x y interactive) nmoves
  unfold runSequence touchend
  rw [hig, hsx, hsy, hmv]
  simp only [touchstart]
  cases interactive with
  | true => simp
  | false =>
    by_cases hn : nmoves = 0
    · simp [hn]
    · simp only [Bool.false_or, decide_eq_true_eq]
      rw [if_neg (by simp [hn])]
      by_cases hd : |ex - x| < SWIPE_THRESHOLD
      · rw [if_pos hd, if_neg]
        intro hc
        exact absurd hc.2.2.1 (not_le.mpr hd)
      · have hge : SWIPE_THRESHOLD ≤ |ex - x| := not_lt.mp hd
        have hdx0 : ex - x ≠ 0 := by
          intro h0
          rw [h0] at hge
          norm_num [SWIPE_THRESHOLD] at hge
        rw [if_neg hd]
        by_cases ha : 3 * (ey - y) ^ 2 ≤ (ex - x) ^ 2
        · have hOK : angleOK (ex - x) (ey - y) = true :=
            (angleOK_iff _ _).mpr ⟨hdx0, ha⟩
          have hcond : nmoves ≠ 0 ∧ True ∧ SWIPE_THRESHOLD ≤ |ex - x| ∧
              3 * (ey - y) ^ 2 ≤ (ex - x) ^ 2 := ⟨hn, trivial, hge, ha⟩
          rw [hOK]
          rw [if_neg (by simp), if_pos hcond]
        · have hKO : angleOK (ex - x) (ey - y) = false := by
            rw [Bool.eq_false_iff]
            intro hOK
            exact ha ((angleOK_iff _ _).mp hOK).2
          have hcond : ¬(nmoves ≠ 0 ∧ True ∧ SWIPE_THRESHOLD ≤ |ex - x| ∧
              3 * (ey - y) ^ 2 ≤ (ex - x) ^ 2) := fun hc => ha hc.2.2.2
          rw [hKO]
          rw [if_pos (by simp), if_neg hcond]

/-! Claim theorems about the gesture handler. -/

/-- C3: for every touch sequence whose current page path is in the tab list
(tab URLs being nonempty strings, as browser `href`s are): a navigation
occurs iff the sequence qualifies — it moved, it did not start inside an
interactive element, `|dx| ≥ 60` px, and the angle from horizontal is at
most 30° (exactly: `3·dy² ≤ dx²`); and when a navigation occurs it goes to
the next tab for `dx < 0` and to the previous tab for `dx > 0`.  Any
non-qualifying sequence — in particular one starting inside an input,
textarea, select, button, anchor or editable element, or with `|dx| < 60` —
produces no navigation. -/
theorem swipe_navigation_characterization (parse : String → Option String)
    (tabs : List String) (current : String) (x y ex ey : ℚ)
    (interactive : Bool) (nmoves : Nat)
    (hin : 0 ≤ tabIndexOf parse tabs current)
    (hne : ∀ t ∈ tabs, t ≠ "") :
    ((runSequence parse tabs current x y interactive nmoves ex ey).isSome ↔
      nmoves ≠ 0 ∧ interactive = false ∧ (60 : ℚ) ≤ |ex - x| ∧
        3 * (ey - y) ^ 2 ≤ (ex - x) ^ 2) ∧
    (ex - x < 0 →
      (runSequence parse tabs current x y interactive nmoves ex ey).isSome →
      runSequence parse tabs current x y interactive nmoves ex ey
        = nextTab parse tabs current) ∧
    (0 < ex - x →
      (runSequence parse tabs current x y interactive nmoves ex ey).isSome →
      runSequence parse tabs current x y interactive nmoves ex ey
        = prevTab parse tabs current) := by
  simp only [runSequence_eq]
  by_cases hC : nmoves ≠ 0 ∧ interactive = false ∧ SWIPE_THRESHOLD ≤ |ex - x| ∧
      3 * (ey - y) ^ 2 ≤ (ex - x) ^ 2
  · rw [if_pos hC]
    refine ⟨?_, ?_, ?_⟩
    · constructor
      · intro _
        exact hC
      · intro _
        by_cases hneg : ex - x < 0
        · rw [if_pos hneg]
          exact nextTab_isSome parse tabs current hin hne
        · rw [if_neg hneg]
          exact prevTab_isSome parse tabs current hin hne
    · intro hneg _
      rw [if_pos hneg]
    · intro hpos _
      rw [if_neg (asymm hpos)]
  · rw [if_neg hC]
    refine ⟨?_, ?_, ?_⟩
    · simp only [Option.isSome_none, Bool.false_eq_true, false_iff]
      exact fun hc => hC ⟨hc.1, hc.2.1, hc.2.2.1, hc.2.2.2⟩
    · intro _ habs
      simp at habs
    · intro _ habs
      simp at habs

theorem swipe_navigation_characterization_witness :
    runSequence (fun s => some s) ["/", "/reflections", "/profile"]
        "/reflections" 200 100 false 1 100 100
      = nextTab (fun s => some s) ["/", "/reflections", "/profile"] "/reflections" := by
  have h := swipe_navigation_characterization (fun s => some s)
      ["/", "/reflections", "/profile"] "/reflections" 200 100 100 100 false 1
      (by decide) (by decide)
  refine (h.2.1 (by norm_num) ?_)
  rw [(h.1).mpr ⟨by norm_num, rfl, by norm_num, by norm_num⟩]

/-- C7: tab navigation wraps modulo the tab-list length in both directions:
with the current path at index `i` of a list of length `n`, `nextTab`
resolves the tab at index `(i + 1) % n` and `prevTab` the tab at index
`(i - 1 + n) % n`; in particular at the last tab "next" resolves to the
first tab and at the first tab "previous" resolves to the last. -/
theorem tab_wraparound (parse : String → Option String) (tabs : List String)
    (current : String) (i : Nat)
    (hi : tabIndexOf parse tabs current = (i : Int)) (hlen : i < tabs.length) :
    (nextTab parse tabs current = goto (tabs.get? ((i + 1) % tabs.length)) ∧
     prevTab parse tabs current
       = goto (tabs.get? ((i + tabs.length - 1) % tabs.length))) ∧
    (i = tabs.length - 1 → nextTab parse tabs current = goto (tabs.get? 0)) ∧
    (i = 0 → prevTab parse tabs current = goto (tabs.get? (tabs.length - 1))) := by
  have hn : 1 ≤ tabs.length := by omega
  refine ⟨⟨nextTab_eq parse tabs current i hi, prevTab_eq parse tabs current i hi hn⟩,
    ?_, ?_⟩
  · intro hlast
    rw [nextTab_eq parse tabs current i hi, hlast, Nat.sub_add_cancel hn, Nat.mod_self]
  · intro hfirst
    rw [prevTab_eq parse tabs current i hi hn, hfirst]
    rw [Nat.zero_add, Nat.mod_eq_of_lt (by omega)]

theorem tab_wraparound_witness :
    prevTab (fun s => some s) ["/", "/reflections", "/profile"] "/"
      = goto (["/", "/reflections", "/profile"].get? 2) :=
  (tab_wraparound (fun s => some s) ["/", "/reflections", "/profile"] "/" 0
    (by decide) (by decide)).2.2 rfl

/-- C8: if the current page's normalized path is not found in the tab list
— in particular when the current URL is unparsable — no navigation occurs
in either direction; and unparsable tab URLs are treated as non-matching
during the (total, never-failing) index lookup: the lookup never selects a
tab whose own normalization is `null`. -/
theorem unmatched_no_navigation (parse : String → Option String)
    (tabs : List String) (current : String) :
    (tabIndexOf parse tabs current < 0 →
      nextTab parse tabs current = none ∧ prevTab parse tabs current = none) ∧
    (normalizePath parse current = none → tabIndexOf parse tabs current = -1) ∧
    (∀ (j : Nat) (t : String), tabs.get? j = some t →
      normalizePath parse t = none → tabIndexOf parse tabs current ≠ (j : Int)) := by
  refine ⟨?_, ?_, ?_⟩
  · intro h
    constructor
    · simp only [nextTab]
      rw [if_neg (not_le.mpr h)]
    · simp only [prevTab]
      rw [if_neg (not_le.mpr h)]
  · intro hp
    rw [tabIndexOf, hp]
  · intro j t hget hnp habs
    obtain ⟨p, j', hp, hf, hj', hlen⟩ :=
      tabIndexOf_nonneg_elim parse tabs current (habs ▸ Int.natCast_nonneg j)
    have hjj : j' = j := by
      rw [habs] at hj'
      exact_mod_cast hj'.symm
    subst hjj
    obtain ⟨-, t', hget', hpt⟩ := findIdx?_acc_spec _ tabs 0 j' hf
    rw [Nat.sub_zero] at hget'
    have htt : t' = t := Option.some.inj (hget'.symm.trans hget)
    rw [htt] at hpt
    simp only [decide_eq_true_eq] at hpt
    rw [hnp] at hpt
    cases hpt

theorem unmatched_no_navigation_witness :
    tabIndexOf (fun _ => none) ["/a"] "/b" = -1 :=
  (unmatched_no_navigation (fun _ => none) ["/a"] "/b").2.1 rfl

end Swipe
